import Mathlib

/-!
Shallow embedding of the chunked-upload server (`main.go`, the
`/upload_chunk` version) and proofs about its behaviour.

The file system is modelled as an association list from paths to byte
contents; bytes are `Nat` values.  HTTP handlers become pure functions
from a request and a file-system state to a response and a new state.
Sources of nondeterminism that the Go code reads from the outside world
(the bytes produced by `crypto/rand`, the current time, and the outcomes
of the `os.Rename`/`os.Open`/`os.Create`/`io.Copy`/`os.Remove` calls
inside `moveFile`) are passed in explicitly as an environment value.
-/

/-- Paths are strings, file contents are lists of byte values. -/
abbrev FS := List (String × List Nat)

/-- Look up the content stored at path `p` (first match wins). -/
def fsLookup (fs : FS) (p : String) : Option (List Nat) :=
  match fs with
  | [] => none
  | (q, c) :: rest => if q = p then some c else fsLookup rest p

/-- Remove every entry for path `p` (models `os.Remove`). -/
def fsRemove (fs : FS) (p : String) : FS :=
  match fs with
  | [] => []
  | (q, c) :: rest => if q = p then fsRemove rest p else (q, c) :: fsRemove rest p

/-- Write content `c` at path `p`, replacing any previous content
(models creating or truncating a file and writing it whole). -/
def fsWrite (fs : FS) (p : String) (c : List Nat) : FS :=
  (p, c) :: fsRemove fs p

/-- Content at `p`, or the default `d` when the path is absent. -/
def fsGetD (fs : FS) (p : String) (d : List Nat) : List Nat :=
  (fsLookup fs p).getD d

/-- Append bytes `c` to the file at `p`, creating it when absent.
This models `os.OpenFile(p, O_CREATE|O_WRONLY|O_APPEND, 0644)` followed
by a copy of `c` into the opened file. -/
def fsAppend (fs : FS) (p : String) (c : List Nat) : FS :=
  fsWrite fs p (fsGetD fs p [] ++ c)

/-- Loop of the backtracking step in Go `path.Clean`: starting from
position `w`, walk left while `w > dotdot` and the buffer char at `w`
is not a separator.  Mirrors `for out.w > dotdot && out.index(out.w) != '/' { out.w-- }`. -/
def backFrom (out : List Char) (dotdot : Nat) : Nat → Nat
  | 0 => 0
  | w + 1 =>
    if dotdot < w + 1 ∧ out.getD (w + 1) '/' ≠ '/' then backFrom out dotdot w
    else w + 1

/-- Backtracking step of Go `path.Clean` for a `..` element: drop the
last path element from the output buffer (`out.w--` followed by the
walk-left loop, keeping the first `w` characters). -/
def backtrack (out : List Char) (dotdot : Nat) : List Char :=
  out.take (backFrom out dotdot (out.length - 1))

/-- Main loop of Go `path.Clean` (which `filepath.Clean` reduces to on
Unix), transcribed element check by element check.  Go copies a whole
segment with an inner loop; here the flag `inSeg` records that we are
inside the copy of a segment, which is equivalent char by char.
`out` is the output buffer, `dotdot` the limit below which `..` cannot
backtrack. -/
def cleanLoop (rooted : Bool) : List Char → Bool → List Char → Nat → List Char
  | [], _, out, _ => out
  | c :: rest, inSeg, out, dotdot =>
    if inSeg then
      if c = '/' then cleanLoop rooted rest false out dotdot
      else cleanLoop rooted rest true (out ++ [c]) dotdot
    else if c = '/' then
      cleanLoop rooted rest false out dotdot
    else if c = '.' ∧ (rest = [] ∨ rest.head? = some '/') then
      cleanLoop rooted rest false out dotdot
    else if c = '.' ∧ rest.head? = some '.' ∧ (rest.tail = [] ∨ rest.tail.head? = some '/') then
      match rest with
      | [] => out
      | _ :: rest2 =>
        if dotdot < out.length then
          cleanLoop rooted rest2 false (backtrack out dotdot) dotdot
        else if rooted then
          cleanLoop rooted rest2 false out dotdot
        else
          let out2 := (if 0 < out.length then out ++ ['/'] else out) ++ ['.', '.']
          cleanLoop rooted rest2 false out2 out2.length
    else
      let out2 := (if (rooted ∧ out.length ≠ 1) ∨ (¬rooted ∧ out.length ≠ 0) then out ++ ['/'] else out) ++ [c]
      cleanLoop rooted rest true out2 dotdot

/-- Go `path.Clean` on a list of characters: handle the empty path and
the rooted flag, run the main loop, and return "." for an empty result. -/
def goCleanList (cs : List Char) : List Char :=
  match cs with
  | [] => ['.']
  | c :: rest =>
    let out := if c = '/' then cleanLoop true rest false ['/'] 1
               else cleanLoop false (c :: rest) false [] 0
    if out = [] then ['.'] else out

/-- Go `filepath.Clean` (Unix separator). -/
def goClean (path : String) : String :=
  String.mk (goCleanList path.data)

/-- Go `filepath.Join` restricted to the two-argument form used by the
program: skip leading empty elements, join with the separator, clean. -/
def goJoin (a b : String) : String :=
  if a ≠ "" then goClean (a ++ "/" ++ b)
  else if b ≠ "" then goClean b
  else ""

/-- Strip trailing separators, the first loop of Go `filepath.Base`. -/
def stripTrailingSlashes (cs : List Char) : List Char :=
  (cs.reverse.dropWhile (fun c => c = '/')).reverse

/-- Everything after the last separator, the `strings.LastIndex` step of
Go `filepath.Base`. -/
def lastElement (cs : List Char) : List Char :=
  (cs.reverse.takeWhile (fun c => c ≠ '/')).reverse

/-- Go `filepath.Base` (Unix): empty path gives ".", trailing slashes
are stripped, everything up to the last separator is discarded, and a
path of only slashes gives "/". -/
def goBase (path : String) : String :=
  if path = "" then "."
  else
    let last := lastElement (stripTrailingSlashes path.data)
    if last = [] then "/" else String.mk last

/-- Lowercase hexadecimal encoding of a byte list, two characters per
byte, as in Go `hex.EncodeToString` (`hextable[b>>4]`, `hextable[b&15]`).
`Nat.digitChar` agrees with Go's hextable on values below 16. -/
def hexEncode (bs : List Nat) : List Char :=
  bs.flatMap (fun b => [Nat.digitChar (b / 16), Nat.digitChar (b % 16)])

/-- Model of `randomHash(n)`: the bytes that `crypto/rand.Read` produced
are passed in, and the result is their hex encoding.  The error path of
`rand.Read` is not modelled (the handler is analysed on runs where
randomness is available). -/
def randomHash (randBytes : List Nat) : String :=
  String.mk (hexEncode randBytes)

/-- Wall-clock value read by `time.Now()`, with the fields the layout
string "20060102_150405" consumes. -/
structure GoTime where
  year : Nat
  month : Nat
  day : Nat
  hour : Nat
  minute : Nat
  second : Nat

/-- Two-digit zero-padded decimal, as Go `Format` renders "01"-style
fields for in-range (below 100) values. -/
def pad2 (n : Nat) : List Char :=
  [Nat.digitChar (n / 10), Nat.digitChar (n % 10)]

/-- Four-digit zero-padded decimal, as Go `Format` renders the "2006"
year field for in-range (below 10000) values. -/
def pad4 (n : Nat) : List Char :=
  [Nat.digitChar (n / 1000), Nat.digitChar (n / 100 % 10), Nat.digitChar (n / 10 % 10), Nat.digitChar (n % 10)]

/-- Model of `time.Now().Format("20060102_150405")`. -/
def formatTimestamp (t : GoTime) : String :=
  String.mk (pad4 t.year ++ pad2 t.month ++ pad2 t.day ++ ['_'] ++ pad2 t.hour ++ pad2 t.minute ++ pad2 t.second)

/-- Decimal value of a digit list (most significant first). -/
def digitsToNat (cs : List Char) : Nat :=
  cs.foldl (fun a c => a * 10 + (c.toNat - 48)) 0

/-- Model of Go `strconv.ParseInt(s, 10, 64)`, which both
`strconv.Atoi` (64-bit int) and the `total_size` parse reduce to: an
optional sign followed by at least one decimal digit, rejecting values
outside the int64 range (Go reports `ErrRange` as a non-nil error, and
the handler rejects on any non-nil error). -/
def goParseInt (s : String) : Option Int :=
  match s.data with
  | [] => none
  | c :: rest =>
    let signDigits : Bool × List Char :=
      if c = '-' then (true, rest)
      else if c = '+' then (false, rest)
      else (false, c :: rest)
    let neg := signDigits.1
    let ds := signDigits.2
    if ds ≠ [] ∧ ds.all (fun d => d.isDigit) then
      let v : Nat := digitsToNat ds
      if neg then
        if v ≤ 2 ^ 63 then some (-(v : Int)) else none
      else
        if v ≤ 2 ^ 63 - 1 then some (v : Int) else none
    else none

/-- Wrap an integer to the int64 range, making Go's two's-complement
overflow explicit (relevant to `totalChunks-1` at the extreme value). -/
def wrap64 (n : Int) : Int :=
  (n + 2 ^ 63) % 2 ^ 64 - 2 ^ 63

/-- Default of the `UPLOAD_PATH` environment variable: the directory
that receives finished files. -/
def UploadPath : String := "./uploads"

/-- Default of the `TEMP_UPLOAD_PATH` environment variable: the staging
directory for in-progress uploads. -/
def TempUploadPath : String := "./temp_uploads"

/-- Error values `moveFile` can observe or return.  `exdev` is the
cross-device condition `syscall.EXDEV`; `other` stands for any other
`os.Rename` failure; the remaining constructors name the failing call
inside the copy fallback. -/
inductive MoveErr where
  | exdev
  | other
  | openErr
  | createErr
  | copyErr
  | removeErr
deriving DecidableEq

/-- Outcomes of the system calls made by `moveFile`, fixed by the
environment: the result of `os.Rename`, and injected failures of
`os.Open`, `os.Create`, `io.Copy` (with the bytes it managed to write)
and `os.Remove`. -/
structure MoveEnv where
  renameErr : Option MoveErr
  openFail : Bool
  createFail : Bool
  copyFail : Bool
  copyFailBytes : List Nat
  removeFail : Bool

/-- Model of `moveFile(src, dst)`: try `os.Rename`; on success the file
has moved.  On `EXDEV`, open the source (failing when it is absent or
the environment injects a failure), create/truncate the destination,
stream-copy, and only then remove the source; every failure is returned
and aborts the remaining steps.  Any other rename error is returned
unchanged. -/
def moveFile (env : MoveEnv) (src dst : String) (fs : FS) : Option MoveErr × FS :=
  match env.renameErr with
  | none =>
    match fsLookup fs src with
    | some c => (none, fsWrite (fsRemove fs src) dst c)
    | none => (some MoveErr.other, fs)
  | some e =>
    if e = MoveErr.exdev then
      match fsLookup fs src with
      | none => (some MoveErr.openErr, fs)
      | some content =>
        if env.openFail then (some MoveErr.openErr, fs)
        else if env.createFail then (some MoveErr.createErr, fs)
        else if env.copyFail then (some MoveErr.copyErr, fsWrite fs dst env.copyFailBytes)
        else
          let fs1 := fsWrite fs dst content
          if env.removeFail then (some MoveErr.removeErr, fs1)
          else (none, fsRemove fs1 src)
    else (some e, fs)

/-- External inputs of one `uploadChunkHandler` run: the bytes produced
by `crypto/rand` for `randomHash(4)`, the wall clock read by
`time.Now()`, and the outcomes of the file-relocation system calls. -/
structure Env where
  randBytes : List Nat
  now : GoTime
  move : MoveEnv

/-- Responses of the chunk handler, keeping the branch and the data the
code interpolates (the floating-point progress percentage, which is
display-only, is not modelled). -/
inductive ChunkResp where
  | badRequest (msg : String)
  | errSizeMismatch
  | errMove
  | success (filename : String)
  | progress (chunkShown total : Int)
deriving DecidableEq

/-- Discriminator for the progress branch. -/
def ChunkResp.isProgress : ChunkResp → Bool
  | ChunkResp.progress _ _ => true
  | _ => false

/-- Discriminator for the validation-rejection branch. -/
def ChunkResp.isBadRequest : ChunkResp → Bool
  | ChunkResp.badRequest _ => true
  | _ => false

/-- Staging path of a session: `filepath.Join(TempUploadPath,
fmt.Sprintf("%s_%s", uploadID, filepath.Base(filename)))`. -/
def tempPathOf (uploadID filename : String) : String :=
  goJoin TempUploadPath (uploadID ++ "_" ++ goBase filename)

/-- Final file name: `fmt.Sprintf("%s_%s_%s", hash, timestamp,
filepath.Base(filename))` with the hash from `randomHash(4)` and the
timestamp from `time.Now().Format("20060102_150405")`. -/
def newFileNameOf (randBytes : List Nat) (now : GoTime) (filename : String) : String :=
  randomHash randBytes ++ "_" ++ formatTimestamp now ++ "_" ++ goBase filename

/-- Final file path: `filepath.Join(UploadPath, newFileName)`. -/
def finalPathOf (randBytes : List Nat) (now : GoTime) (filename : String) : String :=
  goJoin UploadPath (newFileNameOf randBytes now filename)

/-- Core of `uploadChunkHandler` after validation succeeded: append the
chunk to the single staging file of the session, stat it, and when the
request's chunk index equals `totalChunks-1` finish the upload: on a
size mismatch remove the staging file and fail; otherwise build the
final name and call `moveFile`, removing the staging file and failing
when it errors.  Non-final chunks answer with a progress line.  The
open/copy/stat error paths (which return before any further state
change) and the `randomHash` error path are modelled as succeeding; the
copy is modelled as writing the whole chunk (an uncancelled context —
`copyWithContext` is modelled separately below). -/
def uploadChunkCore (env : Env) (uploadID : String) (chunkIndex totalChunks : Int)
    (filename : String) (totalSize : Int) (chunk : List Nat) (fs : FS) : ChunkResp × FS :=
  let tempFilePath := tempPathOf uploadID filename
  let fs1 := fsAppend fs tempFilePath chunk
  let size : Int := ((fsGetD fs1 tempFilePath []).length : Int)
  if chunkIndex = wrap64 (totalChunks - 1) then
    if size ≠ totalSize then
      (ChunkResp.errSizeMismatch, fsRemove fs1 tempFilePath)
    else
      let finalPath := finalPathOf env.randBytes env.now filename
      match moveFile env.move tempFilePath finalPath fs1 with
      | (none, fs2) => (ChunkResp.success filename, fs2)
      | (some _, fs2) => (ChunkResp.errMove, fsRemove fs2 tempFilePath)
  else
    (ChunkResp.progress (chunkIndex + 1) totalChunks, fs1)

/-- Raw form fields of a chunk request.  `r.FormValue` yields the empty
string for an absent field, so the five text fields are plain strings;
`r.FormFile("chunk")` can be genuinely missing, hence the option. -/
structure RawReq where
  upload_id : String
  chunk_index : String
  total_chunks : String
  filename : String
  total_size : String
  chunk : Option (List Nat)

/-- Validation phase of `uploadChunkHandler`: reject when any of the
five fields is empty, when a numeric field does not parse, or when the
chunk file part is missing — each rejection leaves the state untouched —
then run the core. -/
def uploadChunkHandler (env : Env) (req : RawReq) (fs : FS) : ChunkResp × FS :=
  if req.upload_id = "" ∨ req.chunk_index = "" ∨ req.total_chunks = "" ∨ req.filename = "" ∨ req.total_size = "" then
    (ChunkResp.badRequest "Missing parameters", fs)
  else
    match goParseInt req.chunk_index with
    | none => (ChunkResp.badRequest "Invalid chunk_index", fs)
    | some chunkIndex =>
      match goParseInt req.total_chunks with
      | none => (ChunkResp.badRequest "Invalid total_chunks", fs)
      | some totalChunks =>
        match goParseInt req.total_size with
        | none => (ChunkResp.badRequest "Invalid total_size", fs)
        | some totalSize =>
          match req.chunk with
          | none => (ChunkResp.badRequest "Missing file chunk", fs)
          | some chunk =>
            uploadChunkCore env req.upload_id chunkIndex totalChunks req.filename totalSize chunk fs

/-- One chunk request of a session: the declared index and the payload
bytes. -/
structure SessionReq where
  idx : Int
  bytes : List Nat

/-- Run a sequence of chunk requests of one session (same upload id,
filename, declared chunk count and total size) through the handler
core, threading the file-system state. -/
def runSession (env : Env) (uploadID filename : String) (totalChunks totalSize : Int)
    (reqs : List SessionReq) (fs : FS) : FS :=
  reqs.foldl (fun s r => (uploadChunkCore env uploadID r.idx totalChunks filename totalSize r.bytes s).2) fs

/-- Result of `copyWithContext`: either the loop ran to `io.EOF` and
returned a nil error, or a cancellation check observed `ctx.Done()` and
the loop returned `ctx.Err()` (a non-nil error).  `written` is the byte
count accumulated from the writes. -/
inductive CopyOutcome where
  | success (written : Nat)
  | canceled (written : Nat)
deriving DecidableEq

/-- Loop of `copyWithContext`.  The source is modelled as the list of
successive successful `Read` results followed by `io.EOF`; the
destination accepts every write in full (write errors and short writes
are out of scope of the cancellation property).  `doneAt = some t`
means the cancellation signal is observable from the `t`-th check on
(the trigger fired during iteration `t-1`, after its check had already
passed); `i` counts iterations, `written` the bytes written so far.
The select on `ctx.Done()` runs before each `Read`, including the final
one that returns `io.EOF`. -/
def copyLoop (doneAt : Option Nat) : List (List Nat) → Nat → Nat → CopyOutcome
  | chunks, i, written =>
    if (match doneAt with | some t => decide (t ≤ i) | none => false) then CopyOutcome.canceled written
    else
      match chunks with
      | [] => CopyOutcome.success written
      | c :: rest => copyLoop doneAt rest (i + 1) (written + c.length)

/-- Model of `copyWithContext(ctx, dst, src)`. -/
def copyWithContext (doneAt : Option Nat) (chunks : List (List Nat)) : CopyOutcome :=
  copyLoop doneAt chunks 0 0

/-- Fixed sample environment for concrete runs: `crypto/rand` returned
the bytes de ad be ef, the clock reads 2025-10-11 15:30:42, and every
file-relocation system call succeeds (`os.Rename` returns nil). -/
def demoEnv : Env :=
  { randBytes := [222, 173, 190, 239]
    now := { year := 2025, month := 10, day := 11, hour := 15, minute := 30, second := 42 }
    move := { renameErr := none, openFail := false, createFail := false,
              copyFail := false, copyFailBytes := [], removeFail := false } }

/-- Sample failing relocation environment: `os.Rename` reports `EXDEV`
and the fallback `io.Copy` fails after writing one byte. -/
def demoMoveFailEnv : MoveEnv :=
  { renameErr := some MoveErr.exdev, openFail := false, createFail := false,
    copyFail := true, copyFailBytes := [1], removeFail := false }

/-- Hexadecimal characters (either case). -/
def isHexChar (c : Char) : Bool :=
  c.isDigit || ('a' ≤ c && c ≤ 'f') || ('A' ≤ c && c ≤ 'F')

/-- Final-name shape claimed by the specification, written from the
spec's words for comparison with the code: the name is
`token_timestamp_original` where the token is 8 hexadecimal characters
and the timestamp consists of 14 digits. -/
def specFinalNamePattern (orig name : String) : Prop :=
  ∃ tok ts : String,
    name = tok ++ "_" ++ ts ++ "_" ++ orig ∧
    tok.length = 8 ∧ (∀ c ∈ tok.data, isHexChar c) ∧
    ts.length = 14 ∧ (∀ c ∈ ts.data, c.isDigit)

/-! ## Basic file-system lemmas -/

theorem fsLookup_remove_self (fs : FS) (p : String) : fsLookup (fsRemove fs p) p = none := by
  induction fs with
  | nil => rfl
  | cons e rest ih =>
    rcases e with ⟨q, c⟩
    by_cases h : q = p
    · simpa [fsRemove, h] using ih
    · simpa [fsRemove, fsLookup, h] using ih

theorem fsLookup_remove_ne (fs : FS) (p q : String) (h : q ≠ p) :
    fsLookup (fsRemove fs p) q = fsLookup fs q := by
  induction fs with
  | nil => rfl
  | cons e rest ih =>
    rcases e with ⟨r, c⟩
    by_cases hr : r = p
    · have hrq : ¬ (r = q) := fun hh => h (hh ▸ hr)
      simp [fsRemove, hr, fsLookup, hrq, Ne.symm h]
      simpa using ih
    · by_cases hq : r = q
      · simp [fsRemove, hr, fsLookup, hq, h]
      · simp [fsRemove, hr, fsLookup, hq]
        simpa using ih

theorem fsLookup_write_self (fs : FS) (p : String) (c : List Nat) :
    fsLookup (fsWrite fs p c) p = some c := by
  simp [fsWrite, fsLookup]

theorem fsLookup_write_ne (fs : FS) (p q : String) (c : List Nat) (h : q ≠ p) :
    fsLookup (fsWrite fs p c) q = fsLookup fs q := by
  have hpq : ¬ (p = q) := fun hh => h hh.symm
  simp [fsWrite, fsLookup, hpq]
  exact fsLookup_remove_ne fs p q h

theorem fsGetD_write_self (fs : FS) (p : String) (c d : List Nat) :
    fsGetD (fsWrite fs p c) p d = c := by
  simp [fsGetD, fsLookup_write_self]

theorem fsLookup_append_self (fs : FS) (p : String) (c : List Nat) :
    fsLookup (fsAppend fs p c) p = some (fsGetD fs p [] ++ c) := by
  simp [fsAppend, fsLookup_write_self]

theorem fsLookup_append_ne (fs : FS) (p q : String) (c : List Nat) (h : q ≠ p) :
    fsLookup (fsAppend fs p c) q = fsLookup fs q := by
  simp [fsAppend, fsLookup_write_ne fs p q _ h]

theorem fsGetD_append (fs : FS) (p : String) (c d : List Nat) :
    fsGetD (fsAppend fs p c) p d = fsGetD fs p [] ++ c := by
  simp [fsAppend, fsGetD_write_self]

/-! ## Lemmas about the Clean loop -/

theorem cleanLoop_nil (r : Bool) (s : Bool) (out : List Char) (d : Nat) :
    cleanLoop r [] s out d = out := rfl

theorem cleanLoop_inseg_char (r : Bool) {c : Char} (rest : List Char) (out : List Char) (d : Nat)
    (h : c ≠ '/') :
    cleanLoop r (c :: rest) true out d = cleanLoop r rest true (out ++ [c]) d := by
  rw [cleanLoop.eq_def]
  simp [h]

theorem cleanLoop_inseg_slash (r : Bool) (rest : List Char) (out : List Char) (d : Nat) :
    cleanLoop r ('/' :: rest) true out d = cleanLoop r rest false out d := by
  rw [cleanLoop.eq_def]
  simp

theorem cleanLoop_slash (r : Bool) (rest : List Char) (out : List Char) (d : Nat) :
    cleanLoop r ('/' :: rest) false out d = cleanLoop r rest false out d := by
  rw [cleanLoop.eq_def]
  simp

theorem cleanLoop_dot_slash (r : Bool) (rest : List Char) (out : List Char) (d : Nat) :
    cleanLoop r ('.' :: '/' :: rest) false out d = cleanLoop r ('/' :: rest) false out d := by
  rw [cleanLoop.eq_def]
  simp

theorem cleanLoop_start_empty {c : Char} (rest : List Char) (d : Nat)
    (h1 : c ≠ '/') (h2 : c ≠ '.') :
    cleanLoop false (c :: rest) false [] d = cleanLoop false rest true [c] d := by
  rw [cleanLoop.eq_def]
  simp [h1, h2]

theorem cleanLoop_start_nonempty {c : Char} (rest : List Char) (out : List Char) (d : Nat)
    (h1 : c ≠ '/') (h2 : c ≠ '.') (h3 : out ≠ []) :
    cleanLoop false (c :: rest) false out d = cleanLoop false rest true (out ++ '/' :: [c]) d := by
  rw [cleanLoop.eq_def]
  simp [h1, h2, h3]

theorem cleanLoop_inseg_all (r : Bool) (cs : List Char) :
    ∀ (out : List Char) (d : Nat), (∀ c ∈ cs, c ≠ '/') →
      cleanLoop r cs true out d = out ++ cs := by
  induction cs with
  | nil => intro out d _; simp [cleanLoop_nil]
  | cons c rest ih =>
    intro out d h
    rw [cleanLoop_inseg_char r rest out d (h c (List.mem_cons_self c rest))]
    rw [ih (out ++ [c]) d (fun x hx => h x (List.mem_cons_of_mem c hx))]
    simp

theorem cleanLoop_inseg_upto_slash (r : Bool) (cs : List Char) :
    ∀ (tail out : List Char) (d : Nat), (∀ c ∈ cs, c ≠ '/') →
      cleanLoop r (cs ++ '/' :: tail) true out d = cleanLoop r tail false (out ++ cs) d := by
  induction cs with
  | nil => intro tail out d _; simp [cleanLoop_inseg_slash]
  | cons c rest ih =>
    intro tail out d h
    rw [List.cons_append]
    rw [cleanLoop_inseg_char r _ out d (h c (List.mem_cons_self c rest))]
    rw [ih tail (out ++ [c]) d (fun x hx => h x (List.mem_cons_of_mem c hx))]
    simp

theorem digitChar_ne (n : Nat) : Nat.digitChar n ≠ '/' ∧ Nat.digitChar n ≠ '.' := by
  rcases n with _|(_|(_|(_|(_|(_|(_|(_|(_|(_|(_|(_|(_|(_|(_|(_|m)))))))))))))))
  all_goals try decide
  show ('*' : Char) ≠ '/' ∧ ('*' : Char) ≠ '.'
  decide

theorem cleanLoop_uploads_start (h : Char) (tw : List Char) (h1 : h ≠ '/') (h2 : h ≠ '.') :
    cleanLoop false ('.' :: '/' :: 'u' :: 'p' :: 'l' :: 'o' :: 'a' :: 'd' :: 's' :: '/' :: h :: tw) false [] 0
      = cleanLoop false tw true ('u' :: 'p' :: 'l' :: 'o' :: 'a' :: 'd' :: 's' :: '/' :: [h]) 0 := by
  rw [cleanLoop_dot_slash, cleanLoop_slash]
  rw [cleanLoop_start_empty _ _ (by decide) (by decide)]
  rw [cleanLoop_inseg_char _ _ _ _ (by decide)]
  rw [cleanLoop_inseg_char _ _ _ _ (by decide)]
  rw [cleanLoop_inseg_char _ _ _ _ (by decide)]
  rw [cleanLoop_inseg_char _ _ _ _ (by decide)]
  rw [cleanLoop_inseg_char _ _ _ _ (by decide)]
  rw [cleanLoop_inseg_char _ _ _ _ (by decide)]
  rw [cleanLoop_inseg_slash]
  rw [cleanLoop_start_nonempty _ _ _ h1 h2 (by simp)]
  simp

theorem goCleanList_under_uploads (h : Char) (tw : List Char) (h1 : h ≠ '/') (h2 : h ≠ '.')
    (h3 : ∀ c ∈ tw, c ≠ '/') :
    goCleanList ("./uploads/".data ++ h :: tw) = "uploads/".data ++ h :: tw := by
  have hd : "./uploads/".data ++ h :: tw
      = '.' :: '/' :: 'u' :: 'p' :: 'l' :: 'o' :: 'a' :: 'd' :: 's' :: '/' :: h :: tw := rfl
  rw [hd]
  rw [goCleanList.eq_def]
  simp only []
  rw [cleanLoop_uploads_start h tw h1 h2]
  rw [cleanLoop_inseg_all false tw _ 0 h3]
  simp

theorem goCleanList_under_uploads_trailing (h : Char) (tw : List Char) (h1 : h ≠ '/') (h2 : h ≠ '.')
    (h3 : ∀ c ∈ tw, c ≠ '/') :
    goCleanList ("./uploads/".data ++ (h :: tw ++ ['/'])) = "uploads/".data ++ h :: tw := by
  have hd : "./uploads/".data ++ (h :: tw ++ ['/'])
      = '.' :: '/' :: 'u' :: 'p' :: 'l' :: 'o' :: 'a' :: 'd' :: 's' :: '/' :: h :: (tw ++ ['/']) := rfl
  rw [hd]
  rw [goCleanList.eq_def]
  simp only []
  rw [cleanLoop_uploads_start h (tw ++ ['/']) h1 h2]
  have htl : tw ++ ['/'] = tw ++ '/' :: [] := rfl
  rw [htl]
  rw [cleanLoop_inseg_upto_slash false tw [] _ 0 h3]
  rw [cleanLoop_nil]
  simp

theorem hexEncode_chars (bs : List Nat) : ∀ c ∈ hexEncode bs, c ≠ '/' ∧ c ≠ '.' := by
  intro c hc
  simp only [hexEncode, List.mem_flatMap] at hc
  obtain ⟨x, _, hc⟩ := hc
  simp only [List.mem_cons, List.not_mem_nil, or_false] at hc
  rcases hc with rfl | rfl
  · exact digitChar_ne _
  · exact digitChar_ne _

theorem pad2_chars (n : Nat) : ∀ c ∈ pad2 n, c ≠ '/' ∧ c ≠ '.' := by
  intro c hc
  simp only [pad2, List.mem_cons, List.not_mem_nil, or_false] at hc
  rcases hc with rfl | rfl
  · exact digitChar_ne _
  · exact digitChar_ne _

theorem pad4_chars (n : Nat) : ∀ c ∈ pad4 n, c ≠ '/' ∧ c ≠ '.' := by
  intro c hc
  simp only [pad4, List.mem_cons, List.not_mem_nil, or_false] at hc
  rcases hc with rfl | rfl | rfl | rfl
  all_goals exact digitChar_ne _

theorem timestamp_chars (t : GoTime) : ∀ c ∈ (formatTimestamp t).data, c ≠ '/' ∧ c ≠ '.' := by
  intro c hc
  have hd : (formatTimestamp t).data
      = pad4 t.year ++ pad2 t.month ++ pad2 t.day ++ ['_'] ++ pad2 t.hour ++ pad2 t.minute ++ pad2 t.second := rfl
  rw [hd] at hc
  simp only [List.mem_append] at hc
  rcases hc with ((((((h | h) | h) | h) | h) | h) | h)
  · exact pad4_chars _ c h
  · exact pad2_chars _ c h
  · exact pad2_chars _ c h
  · have : c = '_' := by simpa using h
    rw [this]
    decide
  · exact pad2_chars _ c h
  · exact pad2_chars _ c h
  · exact pad2_chars _ c h

theorem namePre_chars (b : List Nat) (t : GoTime) :
    ∀ c ∈ (randomHash b ++ "_" ++ formatTimestamp t ++ "_").data, c ≠ '/' ∧ c ≠ '.' := by
  intro c hc
  simp only [String.data_append, List.mem_append] at hc
  rcases hc with ((hc | hc) | hc) | hc
  · exact hexEncode_chars b c hc
  · have : c = '_' := by simpa using hc
    rw [this]
    decide
  · exact timestamp_chars t c hc
  · have : c = '_' := by simpa using hc
    rw [this]
    decide

theorem goBase_cases (f : String) :
    goBase f = "/" ∨ ((goBase f).data ≠ [] ∧ ∀ c ∈ (goBase f).data, c ≠ '/') := by
  by_cases h0 : f = ""
  · right
    have hgb : goBase f = "." := by simp [goBase, h0]
    rw [hgb]
    refine ⟨by decide, ?_⟩
    intro c hc
    have : c = '.' := by simpa using hc
    rw [this]
    decide
  · by_cases hl : lastElement (stripTrailingSlashes f.data) = []
    · left
      simp [goBase, h0, hl]
    · right
      have hgb : goBase f = String.mk (lastElement (stripTrailingSlashes f.data)) := by
        simp [goBase, h0, hl]
      rw [hgb]
      refine ⟨by simpa using hl, ?_⟩
      intro c hc
      simp only [lastElement, List.mem_reverse] at hc
      have h2 := List.mem_takeWhile_imp hc
      simpa using h2

/-- C6: for every client-supplied original filename, including names with
parent-directory references, the final file path is inside the configured
output directory: the path `filepath.Join(UploadPath, hash_timestamp_Base(filename))`
always has the shape `uploads/<seg>` for a nonempty, slash-free segment
that is neither `.` nor `..`. -/
theorem final_path_inside_upload_dir (b : List Nat) (t : GoTime) (f : String) :
    ∃ seg : String,
      finalPathOf b t f = "uploads/" ++ seg ∧
      seg.data ≠ [] ∧
      (∀ c ∈ seg.data, c ≠ '/') ∧
      seg ≠ "." ∧ seg ≠ ".." := by
  have hpre := namePre_chars b t
  have hne : (randomHash b ++ "_" ++ formatTimestamp t ++ "_").data ≠ [] := by
    simp [String.data_append]
  obtain ⟨h0, tw0, hw⟩ :
      ∃ h0 tw0, (randomHash b ++ "_" ++ formatTimestamp t ++ "_").data = h0 :: tw0 := by
    cases hc : (randomHash b ++ "_" ++ formatTimestamp t ++ "_").data with
    | nil => exact (hne hc).elim
    | cons a l => exact ⟨a, l, rfl⟩
  have hh0 : h0 ≠ '/' ∧ h0 ≠ '.' := hpre h0 (by rw [hw]; exact List.mem_cons_self _ _)
  have htw0 : ∀ c ∈ tw0, c ≠ '/' := fun c hc =>
    (hpre c (by rw [hw]; exact List.mem_cons_of_mem _ hc)).1
  have hjoin : finalPathOf b t f
      = goClean ("./uploads/" ++ (randomHash b ++ "_" ++ formatTimestamp t ++ "_" ++ goBase f)) := by
    unfold finalPathOf goJoin newFileNameOf
    rw [if_pos (by decide : UploadPath ≠ "")]
    rfl
  rcases goBase_cases f with hb | ⟨hb1, hb2⟩
  · -- goBase f = "/": the name carries a single trailing slash
    refine ⟨String.mk (h0 :: tw0), ?_, by simp, ?_, ?_, ?_⟩
    · rw [hjoin, hb]
      unfold goClean
      have hdata : ("./uploads/" ++ (randomHash b ++ "_" ++ formatTimestamp t ++ "_" ++ "/")).data
          = "./uploads/".data ++ (h0 :: tw0 ++ ['/']) := by
        simp [String.data_append, hw]
      rw [hdata, goCleanList_under_uploads_trailing h0 tw0 hh0.1 hh0.2 htw0]
      rfl
    · intro c hc
      simp only [List.mem_cons] at hc
      rcases hc with rfl | hc
      · exact hh0.1
      · exact htw0 c hc
    · intro heq
      have := congrArg String.data heq
      simp at this
      exact hh0.2 this.1
    · intro heq
      have := congrArg String.data heq
      simp at this
      exact hh0.2 this.1
  · -- goBase f is a nonempty slash-free element
    obtain ⟨b0, btw, hbdata⟩ : ∃ b0 btw, (goBase f).data = b0 :: btw := by
      cases hc : (goBase f).data with
      | nil => exact (hb1 hc).elim
      | cons a l => exact ⟨a, l, rfl⟩
    refine ⟨String.mk (h0 :: (tw0 ++ (goBase f).data)), ?_, by simp, ?_, ?_, ?_⟩
    · rw [hjoin]
      unfold goClean
      have hdata : ("./uploads/" ++ (randomHash b ++ "_" ++ formatTimestamp t ++ "_" ++ goBase f)).data
          = "./uploads/".data ++ (h0 :: (tw0 ++ (goBase f).data)) := by
        simp [String.data_append, hw]
      rw [hdata]
      rw [goCleanList_under_uploads h0 (tw0 ++ (goBase f).data) hh0.1 hh0.2 ?hall]
      · rfl
      case hall =>
        intro c hc
        rcases List.mem_append.mp hc with hc | hc
        · exact htw0 c hc
        · exact hb2 c hc
    · intro c hc
      simp only [List.mem_cons] at hc
      rcases hc with rfl | hc
      · exact hh0.1
      · rcases List.mem_append.mp hc with hc | hc
        · exact htw0 c hc
        · exact hb2 c hc
    · intro heq
      have := congrArg String.data heq
      simp at this
      exact hh0.2 this.1
    · intro heq
      have := congrArg String.data heq
      simp at this
      exact hh0.2 this.1

theorem remove_append_effect (fs : FS) (tmp : String) (c : List Nat) (p : String) :
    fsLookup (fsRemove (fsAppend fs tmp c) tmp) p = fsLookup fs p ∨
    fsLookup (fsRemove (fsAppend fs tmp c) tmp) p = none := by
  by_cases hp : p = tmp
  · right
    rw [hp, fsLookup_remove_self]
  · left
    rw [fsLookup_remove_ne _ _ _ hp, fsLookup_append_ne _ _ _ _ hp]

/-- C5: when the staged bytes of a session (after the final chunk is
appended) do not sum to the declared total size, the final-chunk request
answers with the size-mismatch error and no file is created anywhere:
every path either keeps its previous content or is absent afterwards. -/
theorem size_mismatch_no_final_file (env : Env) (u : String) (i n : Int) (f : String)
    (sz : Int) (c : List Nat) (fs : FS)
    (hfinal : i = wrap64 (n - 1))
    (hsz : ((fsGetD fs (tempPathOf u f) []).length : Int) + (c.length : Int) ≠ sz) :
    (uploadChunkCore env u i n f sz c fs).1 = ChunkResp.errSizeMismatch ∧
    ∀ p, fsLookup (uploadChunkCore env u i n f sz c fs).2 p = fsLookup fs p ∨
         fsLookup (uploadChunkCore env u i n f sz c fs).2 p = none := by
  have hsize : ((fsGetD (fsAppend fs (tempPathOf u f) c) (tempPathOf u f) []).length : Int) ≠ sz := by
    rw [fsGetD_append]
    rw [List.length_append]
    push_cast
    exact hsz
  simp only [uploadChunkCore]
  rw [if_pos hfinal, if_pos hsize]
  exact ⟨rfl, fun p => remove_append_effect fs (tempPathOf u f) c p⟩

/-- C2 (amended): completion is index-based, not count-based: the
handler takes the finalization branch exactly when the current request's
chunk index equals the declared total minus one (with Go int64
wrap-around), regardless of how many chunks were persisted. -/
theorem completion_index_based (env : Env) (u : String) (i n : Int) (f : String)
    (sz : Int) (c : List Nat) (fs : FS) :
    (uploadChunkCore env u i n f sz c fs).1.isProgress = true ↔ i ≠ wrap64 (n - 1) := by
  simp only [uploadChunkCore]
  by_cases h : i = wrap64 (n - 1)
  · rw [if_pos h]
    constructor
    · intro hp
      exfalso
      revert hp
      split
      · simp [ChunkResp.isProgress]
      · split
        · simp [ChunkResp.isProgress]
        · simp [ChunkResp.isProgress]
    · intro hne
      exact absurd h hne
  · rw [if_neg h]
    simp [ChunkResp.isProgress, h]

/-- C2 counterexample: a session declaring 2 total chunks finalizes
successfully on its very first request because that request carries
chunk index 1 = totalChunks-1; only one chunk artifact was ever
persisted, so completion is not \"exactly when the number of distinct
persisted chunk artifacts equals the declared total\". -/
theorem completion_count_cex :
    (uploadChunkCore demoEnv "u1" 1 2 "a.mp4" 1 [42] []).1 = ChunkResp.success "a.mp4" ∧
    fsLookup (uploadChunkCore demoEnv "u1" 1 2 "a.mp4" 1 [42] []).2
        (finalPathOf demoEnv.randBytes demoEnv.now "a.mp4") = some [42] := by
  decide

/-- C3 (amended): on any failing finalization (size mismatch or
`moveFile` error) the handler deletes the staging artifact with
`os.Remove` — the staging data is not left intact. -/
theorem final_failure_removes_staging (env : Env) (u : String) (i n : Int) (f : String)
    (sz : Int) (c : List Nat) (fs : FS)
    (hfinal : i = wrap64 (n - 1))
    (hfail : (uploadChunkCore env u i n f sz c fs).1 ≠ ChunkResp.success f) :
    fsLookup (uploadChunkCore env u i n f sz c fs).2 (tempPathOf u f) = none := by
  simp only [uploadChunkCore] at hfail ⊢
  rw [if_pos hfinal] at hfail ⊢
  by_cases hs : ((fsGetD (fsAppend fs (tempPathOf u f) c) (tempPathOf u f) []).length : Int) ≠ sz
  · rw [if_pos hs]
    simp only []
    exact fsLookup_remove_self _ _
  · rw [if_neg hs] at hfail ⊢
    rcases hmv : moveFile env.move (tempPathOf u f)
        (finalPathOf env.randBytes env.now f) (fsAppend fs (tempPathOf u f) c) with ⟨r, fs2⟩
    rcases r with _ | e
    · rw [hmv] at hfail
      simp at hfail
    · show fsLookup (fsRemove fs2 (tempPathOf u f)) (tempPathOf u f) = none
      exact fsLookup_remove_self _ _

/-- C3 counterexample: a final-chunk request failing the size check
leaves no staging artifact behind — the staging file is removed, not
kept for diagnosis as the claim states. -/
theorem staging_removed_cex :
    (uploadChunkCore demoEnv "u1" 1 2 "a.mp4" 5 [42] []).1 = ChunkResp.errSizeMismatch ∧
    fsLookup (uploadChunkCore demoEnv "u1" 1 2 "a.mp4" 5 [42] []).2 (tempPathOf "u1" "a.mp4") = none := by
  decide

/-- C3 witness. -/
theorem final_failure_removes_staging_witness :
    (1 : Int) = wrap64 (2 - 1) ∧
    (uploadChunkCore demoEnv "u2" 1 2 "b.mp4" 5 [1] []).1 ≠ ChunkResp.success "b.mp4" ∧
    fsLookup (uploadChunkCore demoEnv "u2" 1 2 "b.mp4" 5 [1] []).2 (tempPathOf "u2" "b.mp4") = none :=
  ⟨by decide, by decide,
   final_failure_removes_staging demoEnv "u2" 1 2 "b.mp4" 5 [1] [] (by decide) (by decide)⟩

/-- C4 (amended): a duplicate write of the same (session, index) chunk
is not idempotent: the staging file is opened with `O_APPEND`, so after
the second write the chunk bytes are present twice. -/
theorem duplicate_chunk_appends (env : Env) (u : String) (i n : Int) (f : String)
    (sz : Int) (c : List Nat) (fs : FS)
    (hnf : i ≠ wrap64 (n - 1)) :
    fsLookup (uploadChunkCore env u i n f sz c
        (uploadChunkCore env u i n f sz c fs).2).2 (tempPathOf u f)
      = some (fsGetD fs (tempPathOf u f) [] ++ c ++ c) := by
  simp only [uploadChunkCore]
  rw [if_neg hnf]
  rw [if_neg hnf]
  simp only []
  rw [fsLookup_append_self, fsGetD_append]

/-- C4 counterexample: writing chunk 0 of a 3-chunk session twice
leaves the staging file with the bytes doubled ([7,7]), not equal to
the single-write state ([7]). -/
theorem duplicate_chunk_cex :
    fsLookup (uploadChunkCore demoEnv "u1" 0 3 "a.mp4" 10 [7]
        (uploadChunkCore demoEnv "u1" 0 3 "a.mp4" 10 [7] []).2).2 (tempPathOf "u1" "a.mp4")
      = some [7, 7] ∧
    fsLookup (uploadChunkCore demoEnv "u1" 0 3 "a.mp4" 10 [7] []).2 (tempPathOf "u1" "a.mp4")
      = some [7] ∧
    ¬ ([7, 7] = ([7] : List Nat)) := by
  decide

/-- C4 witness. -/
theorem duplicate_chunk_appends_witness :
    (0 : Int) ≠ wrap64 (3 - 1) ∧
    fsLookup (uploadChunkCore demoEnv "u3" 0 3 "c.mp4" 9 [5]
        (uploadChunkCore demoEnv "u3" 0 3 "c.mp4" 9 [5] []).2).2 (tempPathOf "u3" "c.mp4")
      = some (fsGetD ([] : FS) (tempPathOf "u3" "c.mp4") [] ++ [5] ++ [5]) :=
  ⟨by decide, duplicate_chunk_appends demoEnv "u3" 0 3 "c.mp4" 9 [5] [] (by decide)⟩

/-- C5 witness. -/
theorem size_mismatch_no_final_file_witness :
    (1 : Int) = wrap64 (2 - 1) ∧
    ((fsGetD ([] : FS) (tempPathOf "u4" "d.mp4") []).length : Int) + (([42] : List Nat).length : Int) ≠ 5 ∧
    (uploadChunkCore demoEnv "u4" 1 2 "d.mp4" 5 [42] []).1 = ChunkResp.errSizeMismatch ∧
    (fsLookup (uploadChunkCore demoEnv "u4" 1 2 "d.mp4" 5 [42] []).2 (tempPathOf "u4" "d.mp4")
        = fsLookup ([] : FS) (tempPathOf "u4" "d.mp4") ∨
     fsLookup (uploadChunkCore demoEnv "u4" 1 2 "d.mp4" 5 [42] []).2 (tempPathOf "u4" "d.mp4") = none) :=
  ⟨by decide, by decide,
   (size_mismatch_no_final_file demoEnv "u4" 1 2 "d.mp4" 5 [42] [] (by decide) (by decide)).1,
   (size_mismatch_no_final_file demoEnv "u4" 1 2 "d.mp4" 5 [42] [] (by decide) (by decide)).2
     (tempPathOf "u4" "d.mp4")⟩

theorem digitChar_isDigit (k : Nat) (h : k < 10) : (Nat.digitChar k).isDigit = true := by
  interval_cases k <;> decide

theorem digitChar_isHex (k : Nat) (h : k < 16) : isHexChar (Nat.digitChar k) = true := by
  interval_cases k <;> decide

theorem pad2_digits (n : Nat) (h : n < 100) : ∀ c ∈ pad2 n, c.isDigit = true := by
  intro c hc
  simp only [pad2, List.mem_cons, List.not_mem_nil, or_false] at hc
  rcases hc with rfl | rfl
  · exact digitChar_isDigit _ (by omega)
  · exact digitChar_isDigit _ (Nat.mod_lt _ (by omega))

theorem pad4_digits (n : Nat) (h : n < 10000) : ∀ c ∈ pad4 n, c.isDigit = true := by
  intro c hc
  simp only [pad4, List.mem_cons, List.not_mem_nil, or_false] at hc
  rcases hc with rfl | rfl | rfl | rfl
  · exact digitChar_isDigit _ (by omega)
  all_goals exact digitChar_isDigit _ (Nat.mod_lt _ (by omega))

theorem hexEncode_length (bs : List Nat) : (hexEncode bs).length = 2 * bs.length := by
  induction bs with
  | nil => rfl
  | cons x xs ih =>
    simp only [hexEncode, List.flatMap_cons] at *
    simp [ih]
    omega

/-- C7 counterexample: the concrete final name
deadbeef_20251011_153042_video.mp4 does not match
token(8 hex) + underscore + timestamp(14 digits) + underscore + original:
the code's timestamp field is 15 characters (8 digits, an underscore,
6 digits), so the lengths cannot agree. -/
theorem final_name_pattern_cex :
    ¬ specFinalNamePattern "video.mp4"
        (newFileNameOf [222, 173, 190, 239] ⟨2025, 10, 11, 15, 30, 42⟩ "video.mp4") := by
  intro h
  obtain ⟨tok, ts, heq, h8, _, h14, _⟩ := h
  have hL : (newFileNameOf [222, 173, 190, 239] ⟨2025, 10, 11, 15, 30, 42⟩ "video.mp4").length = 34 := by
    decide
  rw [heq] at hL
  simp only [String.length_append] at hL
  rw [h8, h14] at hL
  have e1 : ("_" : String).length = 1 := rfl
  have e2 : ("video.mp4" : String).length = 9 := rfl
  rw [e1, e2] at hL
  omega

/-- C7 (amended): the final name is
token_dateStamp_timeOfDay_original: the token is 8 lowercase hexadecimal
characters from 4 random bytes, and the timestamp part is an 8-digit
date, an underscore, and a 6-digit time (15 characters containing 14
digits), not a run of 14 contiguous digits. -/
theorem final_name_structure (b : List Nat) (t : GoTime) (f : String)
    (hb : b.length = 4) (hbv : ∀ x ∈ b, x < 256)
    (hy : t.year < 10000) (hmo : t.month < 100) (hd : t.day < 100)
    (hh : t.hour < 100) (hmi : t.minute < 100) (hs : t.second < 100) :
    newFileNameOf b t f = randomHash b ++ "_" ++ formatTimestamp t ++ "_" ++ goBase f ∧
    (randomHash b).length = 8 ∧
    (∀ c ∈ (randomHash b).data, isHexChar c = true) ∧
    (∃ date timeS : String,
      formatTimestamp t = date ++ "_" ++ timeS ∧
      date.length = 8 ∧ (∀ c ∈ date.data, c.isDigit = true) ∧
      timeS.length = 6 ∧ (∀ c ∈ timeS.data, c.isDigit = true)) := by
  refine ⟨rfl, ?_, ?_, ?_⟩
  · show (hexEncode b).length = 8
    rw [hexEncode_length, hb]
  · intro c hc
    simp only [randomHash] at hc
    simp only [hexEncode, List.mem_flatMap] at hc
    obtain ⟨x, hx, hc⟩ := hc
    simp only [List.mem_cons, List.not_mem_nil, or_false] at hc
    have hx256 := hbv x hx
    rcases hc with rfl | rfl
    · exact digitChar_isHex _ (by omega)
    · exact digitChar_isHex _ (Nat.mod_lt _ (by omega))
  · refine ⟨String.mk (pad4 t.year ++ pad2 t.month ++ pad2 t.day),
      String.mk (pad2 t.hour ++ pad2 t.minute ++ pad2 t.second), ?_, ?_, ?_, ?_, ?_⟩
    · apply String.ext
      show (pad4 t.year ++ pad2 t.month ++ pad2 t.day ++ ['_'] ++ pad2 t.hour ++ pad2 t.minute ++ pad2 t.second) = _
      simp [String.data_append]
    · show (pad4 t.year ++ pad2 t.month ++ pad2 t.day).length = 8
      simp [pad4, pad2]
    · intro c hc
      simp only [List.mem_append] at hc
      rcases hc with (hc | hc) | hc
      · exact pad4_digits _ hy c hc
      · exact pad2_digits _ hmo c hc
      · exact pad2_digits _ hd c hc
    · show (pad2 t.hour ++ pad2 t.minute ++ pad2 t.second).length = 6
      simp [pad2]
    · intro c hc
      simp only [List.mem_append] at hc
      rcases hc with (hc | hc) | hc
      · exact pad2_digits _ hh c hc
      · exact pad2_digits _ hmi c hc
      · exact pad2_digits _ hs c hc

/-- C7 witness. -/
theorem final_name_structure_witness :
    ([222, 173, 190, 239] : List Nat).length = 4 ∧
    (newFileNameOf [222, 173, 190, 239] ⟨2025, 10, 11, 15, 30, 42⟩ "video.mp4"
      = randomHash [222, 173, 190, 239] ++ "_" ++ formatTimestamp ⟨2025, 10, 11, 15, 30, 42⟩ ++ "_"
          ++ goBase "video.mp4" ∧
     (randomHash [222, 173, 190, 239]).length = 8 ∧
     (∀ c ∈ (randomHash [222, 173, 190, 239]).data, isHexChar c = true) ∧
     (∃ date timeS : String,
       formatTimestamp ⟨2025, 10, 11, 15, 30, 42⟩ = date ++ "_" ++ timeS ∧
       date.length = 8 ∧ (∀ c ∈ date.data, c.isDigit = true) ∧
       timeS.length = 6 ∧ (∀ c ∈ timeS.data, c.isDigit = true))) :=
  ⟨by decide,
   final_name_structure [222, 173, 190, 239] ⟨2025, 10, 11, 15, 30, 42⟩ "video.mp4"
     (by decide) (by decide) (by decide) (by decide) (by decide) (by decide) (by decide) (by decide)⟩

theorem copyLoop_cancel (chunks : List (List Nat)) :
    ∀ (i w t : Nat), i ≤ t → t ≤ i + chunks.length →
      copyLoop (some t) chunks i w
        = CopyOutcome.canceled (w + ((chunks.take (t - i)).map List.length).sum) := by
  induction chunks with
  | nil =>
    intro i w t h1 h2
    simp only [List.length_nil, Nat.add_zero] at h2
    have ht : t = i := Nat.le_antisymm h2 h1
    rw [copyLoop.eq_def]
    simp [ht]
  | cons c rest ih =>
    intro i w t h1 h2
    rcases Nat.eq_or_lt_of_le h1 with rfl | hlt
    · rw [copyLoop.eq_def]
      simp
    · rw [copyLoop.eq_def]
      have hcond : ¬ (t ≤ i) := by omega
      simp only [hcond, decide_eq_true_eq, if_false, decide_eq_false_iff_not, not_false_iff]
      have hstep : copyLoop (some t) rest (i + 1) (w + c.length)
          = CopyOutcome.canceled (w + c.length + ((rest.take (t - (i + 1))).map List.length).sum) := by
        apply ih
        · omega
        · simp only [List.length_cons] at h2
          omega
      rw [hstep]
      have hsplit : t - i = (t - (i + 1)) + 1 := by omega
      rw [hsplit]
      rw [List.take_succ_cons]
      simp only [List.map_cons, List.sum_cons]
      congr 1
      omega

/-- C8: when the cancellation signal fires mid-transfer (observable
from check `t` on, with at least one check passed and reads remaining),
`copyWithContext` stops after writing exactly the first `t` reads — the
`t-1` that preceded the trigger plus at most one more — and returns
`ctx.Err()`, never success. -/
theorem copy_cancel_prompt (chunks : List (List Nat)) (t : Nat)
    (h1 : 1 ≤ t) (h2 : t ≤ chunks.length) :
    copyWithContext (some t) chunks
        = CopyOutcome.canceled (((chunks.take t).map List.length).sum) ∧
    ∀ w, copyWithContext (some t) chunks ≠ CopyOutcome.success w := by
  have h := copyLoop_cancel chunks 0 0 t (by omega) (by omega)
  constructor
  · simpa [copyWithContext] using h
  · intro w hw
    rw [copyWithContext] at hw
    rw [h] at hw
    simp at hw

/-- C8 witness. -/
theorem copy_cancel_prompt_witness :
    1 ≤ 1 ∧ 1 ≤ ([[1, 2], [3]] : List (List Nat)).length ∧
    copyWithContext (some 1) [[1, 2], [3]]
      = CopyOutcome.canceled (((([[1, 2], [3]] : List (List Nat)).take 1).map List.length).sum) :=
  ⟨by decide, by decide, (copy_cancel_prompt [[1, 2], [3]] 1 (by decide) (by decide)).1⟩

/-- C9: a chunk request with any of the five required fields missing
(empty), or a numeric field that does not parse as an integer, is
rejected with a 400 response and leaves the file-system state exactly
unchanged. -/
theorem validation_rejects_no_state_change (env : Env) (req : RawReq) (fs : FS)
    (h : req.upload_id = "" ∨ req.chunk_index = "" ∨ req.total_chunks = "" ∨
         req.filename = "" ∨ req.total_size = "" ∨
         goParseInt req.chunk_index = none ∨ goParseInt req.total_chunks = none ∨
         goParseInt req.total_size = none ∨ req.chunk = none) :
    (uploadChunkHandler env req fs).1.isBadRequest = true ∧
    (uploadChunkHandler env req fs).2 = fs := by
  unfold uploadChunkHandler
  by_cases h5 : req.upload_id = "" ∨ req.chunk_index = "" ∨ req.total_chunks = "" ∨
      req.filename = "" ∨ req.total_size = ""
  · rw [if_pos h5]
    exact ⟨rfl, rfl⟩
  · rw [if_neg h5]
    rcases h with h | h | h | h | h | h | h | h | h
    · exact absurd (Or.inl h) h5
    · exact absurd (Or.inr (Or.inl h)) h5
    · exact absurd (Or.inr (Or.inr (Or.inl h))) h5
    · exact absurd (Or.inr (Or.inr (Or.inr (Or.inl h)))) h5
    · exact absurd (Or.inr (Or.inr (Or.inr (Or.inr h)))) h5
    · simp [h, ChunkResp.isBadRequest]
    · cases hci : goParseInt req.chunk_index with
      | none => simp [hci, ChunkResp.isBadRequest]
      | some v => simp [hci, h, ChunkResp.isBadRequest]
    · cases hci : goParseInt req.chunk_index with
      | none => simp [hci, ChunkResp.isBadRequest]
      | some v =>
        cases htc : goParseInt req.total_chunks with
        | none => simp [hci, htc, ChunkResp.isBadRequest]
        | some v2 => simp [hci, htc, h, ChunkResp.isBadRequest]
    · cases hci : goParseInt req.chunk_index with
      | none => simp [hci, ChunkResp.isBadRequest]
      | some v =>
        cases htc : goParseInt req.total_chunks with
        | none => simp [hci, htc, ChunkResp.isBadRequest]
        | some v2 =>
          cases hts : goParseInt req.total_size with
          | none => simp [hci, htc, hts, ChunkResp.isBadRequest]
          | some v3 => simp [hci, htc, hts, h, ChunkResp.isBadRequest]

/-- C9 witness. -/
theorem validation_rejects_no_state_change_witness :
    (uploadChunkHandler demoEnv ⟨"", "0", "2", "a.mp4", "1", some [1]⟩ [("x", [9])]).1.isBadRequest = true ∧
    (uploadChunkHandler demoEnv ⟨"", "0", "2", "a.mp4", "1", some [1]⟩ [("x", [9])]).2 = [("x", [9])] :=
  validation_rejects_no_state_change demoEnv ⟨"", "0", "2", "a.mp4", "1", some [1]⟩ [("x", [9])]
    (Or.inl rfl)

/-- C10: when `os.Rename` fails with `EXDEV`, `moveFile` falls back to
open/create/copy and removes the source only after the copy fully
succeeded: any open, create or copy failure returns a non-nil error
with the source intact, and the source is gone only in the runs whose
result is nil and whose destination holds the full content. -/
theorem moveFile_fallback_source_safety (env : MoveEnv) (src dst : String) (fs : FS)
    (content : List Nat)
    (hx : env.renameErr = some MoveErr.exdev)
    (hsrc : fsLookup fs src = some content)
    (hne : src ≠ dst) :
    ((env.openFail ∨ env.createFail ∨ env.copyFail) →
      (moveFile env src dst fs).1 ≠ none ∧
      fsLookup (moveFile env src dst fs).2 src = some content) ∧
    (fsLookup (moveFile env src dst fs).2 src = none →
      (moveFile env src dst fs).1 = none ∧
      fsLookup (moveFile env src dst fs).2 dst = some content) := by
  have hds : ¬ (dst = src) := fun hh => hne hh.symm
  obtain ⟨re, ho, hc, hcp, hcb, hr⟩ := env
  simp only [] at hx
  subst hx
  cases ho <;> cases hc <;> cases hcp <;> cases hr <;>
    simp [moveFile, hsrc, hne, hds, fsLookup_write_ne, fsLookup_write_self,
      fsLookup_remove_ne, fsLookup_remove_self]

/-- C10 witness. -/
theorem moveFile_fallback_source_safety_witness :
    demoMoveFailEnv.renameErr = some MoveErr.exdev ∧
    fsLookup [("a", [1, 2])] "a" = some [1, 2] ∧
    ¬ ("a" : String) = "b" ∧
    (moveFile demoMoveFailEnv "a" "b" [("a", [1, 2])]).1 ≠ none ∧
    fsLookup (moveFile demoMoveFailEnv "a" "b" [("a", [1, 2])]).2 "a" = some [1, 2] :=
  ⟨rfl, by decide, by decide,
   ((moveFile_fallback_source_safety demoMoveFailEnv "a" "b" [("a", [1, 2])] [1, 2]
     rfl (by decide) (by decide)).1 (Or.inr (Or.inr (by decide)))).1,
   ((moveFile_fallback_source_safety demoMoveFailEnv "a" "b" [("a", [1, 2])] [1, 2]
     rfl (by decide) (by decide)).1 (Or.inr (Or.inr (by decide)))).2⟩

theorem uploadChunkCore_progress_snd (env : Env) (u : String) (i n : Int) (f : String)
    (sz : Int) (c : List Nat) (fs : FS) (h : i ≠ wrap64 (n - 1)) :
    (uploadChunkCore env u i n f sz c fs).2 = fsAppend fs (tempPathOf u f) c := by
  simp only [uploadChunkCore]
  rw [if_neg h]

theorem runSession_progress (env : Env) (u f : String) (n sz : Int) :
    ∀ (body : List SessionReq) (fs : FS),
      (∀ r ∈ body, r.idx ≠ wrap64 (n - 1)) →
      fsGetD (runSession env u f n sz body fs) (tempPathOf u f) []
          = fsGetD fs (tempPathOf u f) [] ++ (body.map (fun r => r.bytes)).flatten ∧
      ∀ p, p ≠ tempPathOf u f →
        fsLookup (runSession env u f n sz body fs) p = fsLookup fs p := by
  intro body
  induction body with
  | nil =>
    intro fs _
    constructor
    · simp [runSession]
    · intro p _
      simp [runSession]
  | cons r rest ih =>
    intro fs h
    have hr : r.idx ≠ wrap64 (n - 1) := h r (List.mem_cons_self r rest)
    have hrest : ∀ x ∈ rest, x.idx ≠ wrap64 (n - 1) := fun x hx => h x (List.mem_cons_of_mem r hx)
    have hfold : runSession env u f n sz (r :: rest) fs
        = runSession env u f n sz rest ((uploadChunkCore env u r.idx n f sz r.bytes fs).2) := rfl
    rw [hfold, uploadChunkCore_progress_snd env u r.idx n f sz r.bytes fs hr]
    obtain ⟨ih1, ih2⟩ := ih (fsAppend fs (tempPathOf u f) r.bytes) hrest
    constructor
    · rw [ih1, fsGetD_append]
      simp
    · intro p hp
      rw [ih2 p hp, fsLookup_append_ne _ _ _ _ hp]

theorem session_bytes_length (l : List SessionReq) :
    (((l.map (fun r => r.bytes)).flatten.length : Int)) = (l.map (fun r => (r.bytes.length : Int))).sum := by
  induction l with
  | nil => rfl
  | cons r rest ih =>
    simp only [List.map_cons, List.flatten_cons, List.length_append, List.sum_cons]
    push_cast
    rw [ih]

/-- C1 (amended): the reassembled artifact is the concatenation of the
chunks in arrival order, not index order: for any request sequence of
one session in which every request but the final one carries a
non-final index, the final one carries index totalChunks-1, and the
byte lengths sum to the declared size, the finished file holds the
payloads concatenated in the order they arrived.  Arrival order equals
index order only when chunks are sent in ascending order. -/
theorem reassembly_arrival_order (env : Env) (u f : String) (n sz : Int)
    (body : List SessionReq) (last : SessionReq) (fs : FS)
    (hrename : env.move.renameErr = none)
    (hbody : ∀ r ∈ body, r.idx ≠ wrap64 (n - 1))
    (hlast : last.idx = wrap64 (n - 1))
    (hstart : fsLookup fs (tempPathOf u f) = none)
    (hsz : (((body ++ [last]).map (fun r => (r.bytes.length : Int))).sum) = sz) :
    fsLookup (runSession env u f n sz (body ++ [last]) fs)
        (finalPathOf env.randBytes env.now f)
      = some (((body ++ [last]).map (fun r => r.bytes)).flatten) := by
  have hsplit : runSession env u f n sz (body ++ [last]) fs
      = (uploadChunkCore env u last.idx n f sz last.bytes (runSession env u f n sz body fs)).2 := by
    simp [runSession, List.foldl_append]
  rw [hsplit]
  obtain ⟨h1, h2⟩ := runSession_progress env u f n sz body fs hbody
  have htemp : fsGetD (runSession env u f n sz body fs) (tempPathOf u f) []
      = (body.map (fun r => r.bytes)).flatten := by
    rw [h1]
    simp [fsGetD, hstart]
  have hflat : ((body ++ [last]).map (fun r => r.bytes)).flatten
      = (body.map (fun r => r.bytes)).flatten ++ last.bytes := by
    simp
  have hsize : ((fsGetD (fsAppend (runSession env u f n sz body fs) (tempPathOf u f) last.bytes)
      (tempPathOf u f) []).length : Int) = sz := by
    rw [fsGetD_append, htemp]
    rw [← hflat]
    rw [session_bytes_length]
    exact hsz
  simp only [uploadChunkCore]
  rw [if_pos hlast]
  rw [if_neg (fun hcon => hcon hsize)]
  simp only [moveFile, hrename]
  rw [fsLookup_append_self]
  simp only []
  rw [fsLookup_write_self]
  rw [htemp, hflat]

/-- C1 counterexample: writing the three 1-byte chunks in order 0,1,2
finalizes the file as [0,1,2], while the permuted order 1,0,2 finalizes
it as [1,0,2] — the two byte strings differ, so reassembly is not
order-independent. -/
theorem chunk_order_permutation_cex :
    fsLookup (runSession demoEnv "u1" "a.mp4" 3 3 [⟨0, [0]⟩, ⟨1, [1]⟩, ⟨2, [2]⟩] [])
        (finalPathOf demoEnv.randBytes demoEnv.now "a.mp4") = some [0, 1, 2] ∧
    fsLookup (runSession demoEnv "u1" "a.mp4" 3 3 [⟨1, [1]⟩, ⟨0, [0]⟩, ⟨2, [2]⟩] [])
        (finalPathOf demoEnv.randBytes demoEnv.now "a.mp4") = some [1, 0, 2] ∧
    ¬ ([0, 1, 2] = ([1, 0, 2] : List Nat)) := by
  decide

/-- C1 witness. -/
theorem reassembly_arrival_order_witness :
    demoEnv.move.renameErr = none ∧
    (⟨1, [20]⟩ : SessionReq).idx = wrap64 (2 - 1) ∧
    fsLookup ([] : FS) (tempPathOf "u5" "e.mp4") = none ∧
    fsLookup (runSession demoEnv "u5" "e.mp4" 2 2 ([⟨0, [10]⟩] ++ [⟨1, [20]⟩]) [])
        (finalPathOf demoEnv.randBytes demoEnv.now "e.mp4")
      = some ((([⟨0, [10]⟩] ++ [⟨1, [20]⟩] : List SessionReq).map (fun r => r.bytes)).flatten) :=
  ⟨rfl, by decide, by decide,
   reassembly_arrival_order demoEnv "u5" "e.mp4" 2 2 [⟨0, [10]⟩] ⟨1, [20]⟩ []
     rfl (by decide) (by decide) (by decide) (by decide)⟩
